import Mathlib

/-!
Shallow embedding of the Pixelcraft voxel-sandbox pages (the `Index` components)
and proofs about their world/inventory/projection logic.

Numbers held in JS variables are modelled as exact rationals (`ℚ`) for positions
and `ℤ` for lattice coordinates and inventory counts.  The source computes
`Math.sin`/`Math.cos` of the camera's `yaw`/`pitch` into local variables before
using them; here those four precomputed values are the fields of `LookTrig`, and
functions take them as an argument.  `Math.round x` is `⌊x + 1/2⌋`, which is
exactly Lean's `round` on `ℚ`.  The camera motion model, whose clamp constants
involve `Math.PI`, is embedded over `ℝ` with `Real.cos`/`Real.sin`/`Real.pi`.
-/

namespace Pixelcraft

/-- The `BlockType` union of the main variant (`part_001`). -/
inductive BlockType where
  | grass
  | dirt
  | stone
  | wood
  | air
  | planks
  | cobblestone
  deriving DecidableEq, Repr, Fintype

/-- A placed block: a type plus its integer lattice cell (`interface Block`). -/
structure Block where
  type : BlockType
  x : ℤ
  y : ℤ
  z : ℤ
  deriving DecidableEq, Repr

/-- One inventory slot (`interface InventoryItem`). -/
structure InventoryItem where
  type : BlockType
  count : ℤ
  deriving DecidableEq, Repr

/-- The camera position read by the targeting handlers (`camera.x/y/z`). -/
structure Camera where
  x : ℚ
  y : ℚ
  z : ℚ
  deriving DecidableEq, Repr

/-- The four trigonometric values `Math.sin(camera.yaw)`, `Math.cos(camera.yaw)`,
`Math.sin(camera.pitch)`, `Math.cos(camera.pitch)` that the source computes
before projecting or targeting.  Passing them explicitly keeps the embedding
executable. -/
structure LookTrig where
  sinYaw : ℚ
  cosYaw : ℚ
  sinPitch : ℚ
  cosPitch : ℚ
  deriving DecidableEq, Repr

/-- The toasts the targeting handlers can emit (`toast.success` / `toast.error`);
`notEnough` is the insufficient-inventory error toast. -/
inductive Toast where
  | placed (t : BlockType)
  | removed (t : BlockType)
  | notEnough
  deriving DecidableEq, Repr

/-- The mutable state the targeting handlers touch: the `world` block list and
the `inventory` slot list. -/
structure GameState where
  world : List Block
  inventory : List InventoryItem
  deriving DecidableEq, Repr

/-- The forward look vector of `handleCanvasClick`/`handleContextMenu`:
`{ x: sin(yaw)*cos(pitch), y: -sin(pitch), z: cos(yaw)*cos(pitch) }`. -/
def lookForward (t : LookTrig) : ℚ × ℚ × ℚ :=
  (t.sinYaw * t.cosPitch, -t.sinPitch, t.cosYaw * t.cosPitch)

/-- The lattice cell `Math.round(camera + forward * d)` targeted at distance `d`. -/
def cellAt (cam : Camera) (t : LookTrig) (d : ℚ) : ℤ × ℤ × ℤ :=
  (round (cam.x + (lookForward t).1 * d),
   round (cam.y + (lookForward t).2.1 * d),
   round (cam.z + (lookForward t).2.2 * d))

/-- The predicate `b.x === cx && b.y === cy && b.z === cz` used by
`world.some` / `world.findIndex`. -/
def blockAtCell (c : ℤ × ℤ × ℤ) (b : Block) : Bool :=
  b.x == c.1 && b.y == c.2.1 && b.z == c.2.2

/-- `handleCanvasClick` of `part_001` (left button, pointer locked): look up the
selected type's first inventory slot; with a positive count, compute the cell at
distance 3 along the look vector; if it is free, append the block and decrement
every slot of the selected type, toasting success; if occupied, do nothing
silently; otherwise toast the insufficient-inventory error. -/
def handleCanvasClick (cam : Camera) (t : LookTrig) (selectedBlock : BlockType)
    (st : GameState) : GameState × Option Toast :=
  match st.inventory.find? (fun i => i.type == selectedBlock) with
  | some item =>
    if 0 < item.count then
      let target := cellAt cam t 3
      if st.world.any (blockAtCell target) then
        (st, none)
      else
        ({ world := st.world ++ [⟨selectedBlock, target.1, target.2.1, target.2.2⟩],
           inventory := st.inventory.map (fun i =>
             if i.type == selectedBlock then { i with count := i.count - 1 } else i) },
         some (Toast.placed selectedBlock))
    else (st, some Toast.notEnough)
  | none => (st, some Toast.notEnough)

/-- The distances `1, 1.5, 2, …, 5` of the removal loop
`for (let dist = 1; dist <= 5; dist += 0.5)`; `0.5` is exact in floating point,
so the loop visits exactly these nine values. -/
def reachDistances : List ℚ := [1, 3/2, 2, 5/2, 3, 7/2, 4, 9/2, 5]

/-- The body of `handleContextMenu`'s loop over the remaining distances: at the
first distance whose rounded cell holds a block, drop that first matching block
(the source keeps every index other than `findIndex`'s result, i.e. erases the
first match) and bump every slot of its type, toasting the removal. -/
def removeScan (cam : Camera) (t : LookTrig) (st : GameState) :
    List ℚ → GameState × Option Toast
  | [] => (st, none)
  | d :: rest =>
    let target := cellAt cam t d
    match st.world.find? (blockAtCell target) with
    | some removedBlock =>
      ({ world := st.world.eraseP (blockAtCell target),
         inventory := st.inventory.map (fun i =>
           if i.type == removedBlock.type then { i with count := i.count + 1 } else i) },
       some (Toast.removed removedBlock.type))
    | none => removeScan cam t st rest

/-- `handleContextMenu` of `part_001`/`part_000` (right button, pointer locked). -/
def handleContextMenu (cam : Camera) (t : LookTrig) (st : GameState) :
    GameState × Option Toast :=
  removeScan cam t st reachDistances

/-- The target cell of `part_002`'s `handleCanvasClick`: its forward vector
ignores pitch (`{ x: sin(yaw), z: cos(yaw) }`), the reach is 2, and the y
coordinate is the rounded camera height. -/
def cellAtP2 (cam : Camera) (sinYaw cosYaw : ℚ) : ℤ × ℤ × ℤ :=
  (round (cam.x + sinYaw * 2), round cam.y, round (cam.z + cosYaw * 2))

/-- `handleCanvasClick` of `part_002` (left button): with a positive count it
appends the block and decrements the slots unconditionally — there is no
occupied-cell check — and an insufficient inventory is a silent no-op (no
toast). -/
def handleCanvasClickP2 (cam : Camera) (sinYaw cosYaw : ℚ) (selectedBlock : BlockType)
    (st : GameState) : GameState × Option Toast :=
  match st.inventory.find? (fun i => i.type == selectedBlock) with
  | some item =>
    if 0 < item.count then
      let target := cellAtP2 cam sinYaw cosYaw
      ({ world := st.world ++ [⟨selectedBlock, target.1, target.2.1, target.2.2⟩],
         inventory := st.inventory.map (fun i =>
           if i.type == selectedBlock then { i with count := i.count - 1 } else i) },
       some (Toast.placed selectedBlock))
    else (st, none)
  | none => (st, none)

/-- The initial inventory of `part_001`. -/
def initialInventory : List InventoryItem :=
  [⟨BlockType.grass, 64⟩, ⟨BlockType.dirt, 64⟩, ⟨BlockType.stone, 64⟩,
   ⟨BlockType.wood, 64⟩, ⟨BlockType.planks, 0⟩, ⟨BlockType.cobblestone, 10⟩]

/-- The initial inventory of `part_000`: only four slots, no `planks` or
`cobblestone` slot. -/
def p0Inventory : List InventoryItem :=
  [⟨BlockType.grass, 64⟩, ⟨BlockType.dirt, 64⟩, ⟨BlockType.stone, 64⟩,
   ⟨BlockType.wood, 64⟩]

/-- The ephemeral result of `project3DTo2D`: a screen point plus a depth;
`distance = -1` is the behind-camera sentinel. -/
structure ProjectedPoint where
  x : ℚ
  y : ℚ
  distance : ℚ
  deriving DecidableEq, Repr

/-- The camera-relative forward depth `finalZ` computed inside `project3DTo2D`:
translate by the camera position, rotate by yaw about the vertical axis, then
by pitch about the resulting horizontal axis, and take the forward component. -/
def forwardDepth (cam : Camera) (t : LookTrig) (p : ℚ × ℚ × ℚ) : ℚ :=
  let dy := p.2.1 - cam.y
  let rotatedZ := (p.1 - cam.x) * t.sinYaw + (p.2.2 - cam.z) * t.cosYaw
  let finalZ := -dy * t.sinPitch + rotatedZ * t.cosPitch
  finalZ

/-- `project3DTo2D` of `part_001` in the canvas-present branch (when the canvas
ref is null the caller `drawWorld` has already returned, so only this branch
renders): rotate into camera space, near-plane cull at depth `0.1` returning
the sentinel `{x: 0, y: 0, distance: -1}`, else perspective-divide with
`fov = 500` and center on the canvas midpoint with the y axis inverted. -/
def project3DTo2D (cam : Camera) (t : LookTrig) (canvasW canvasH : ℚ)
    (p : ℚ × ℚ × ℚ) : ProjectedPoint :=
  let dx := p.1 - cam.x
  let dy := p.2.1 - cam.y
  let dz := p.2.2 - cam.z
  let rotatedX := dx * t.cosYaw - dz * t.sinYaw
  let rotatedZ := dx * t.sinYaw + dz * t.cosYaw
  let rotatedY := dy * t.cosPitch + rotatedZ * t.sinPitch
  let finalZ := -dy * t.sinPitch + rotatedZ * t.cosPitch
  if finalZ ≤ 1/10 then ⟨0, 0, -1⟩
  else
    let fov : ℚ := 500
    ⟨rotatedX * fov / finalZ + canvasW / 2, -rotatedY * fov / finalZ + canvasH / 2, finalZ⟩

/-- The eight corners of the unit cube at lattice cell `(x, y, z)`, in the order
`drawCube` lists them. -/
def cubeCorners (x y z : ℤ) : List (ℚ × ℚ × ℚ) :=
  [((x : ℚ), (y : ℚ), (z : ℚ)), ((x : ℚ) + 1, (y : ℚ), (z : ℚ)),
   ((x : ℚ) + 1, (y : ℚ) + 1, (z : ℚ)), ((x : ℚ), (y : ℚ) + 1, (z : ℚ)),
   ((x : ℚ), (y : ℚ), (z : ℚ) + 1), ((x : ℚ) + 1, (y : ℚ), (z : ℚ) + 1),
   ((x : ℚ) + 1, (y : ℚ) + 1, (z : ℚ) + 1), ((x : ℚ), (y : ℚ) + 1, (z : ℚ) + 1)]

/-- The fixed corner-index groupings of the six quad faces in `drawCube`. -/
def cubeFaces : List (List ℕ) :=
  [[0, 1, 2, 3], [4, 5, 6, 7], [0, 1, 5, 4], [2, 3, 7, 6], [0, 3, 7, 4], [1, 2, 6, 5]]

/-- `drawCube`: project the eight corners; if any projection has a negative
distance (the sentinel), draw nothing (`none`); otherwise emit the six face
polygons as lists of projected points. -/
def drawCube (cam : Camera) (t : LookTrig) (canvasW canvasH : ℚ) (x y z : ℤ) :
    Option (List (List ProjectedPoint)) :=
  let projected := (cubeCorners x y z).map (project3DTo2D cam t canvasW canvasH)
  if projected.any (fun p => p.distance < 0) then none
  else some (cubeFaces.map (fun face => face.filterMap (fun i => projected[i]?)))

/-- The squared horizontal camera distance `dx*dx + dz*dz` of a block; the
source compares `Math.sqrt` of this against the render distance and uses it as
the sort key, which the lemmas below relate to these squared comparisons. -/
def hDistSq (cam : Camera) (b : Block) : ℚ :=
  ((b.x : ℚ) - cam.x) ^ 2 + ((b.z : ℚ) - cam.z) ^ 2

/-- The ordering realised by `world.sort((a, b) => distB - distA)`: `a` may
precede `b` exactly when `b`'s distance does not exceed `a`'s. -/
def fartherFirst (cam : Camera) (a b : Block) : Prop :=
  hDistSq cam b ≤ hDistSq cam a

instance (cam : Camera) : DecidableRel (fartherFirst cam) := fun a b =>
  inferInstanceAs (Decidable (hDistSq cam b ≤ hDistSq cam a))

/-- The render-distance filter of `drawWorld`:
`Math.sqrt(dx*dx + dz*dz) < RENDER_DISTANCE` with `RENDER_DISTANCE = 15`,
stated on squares (`lemma renderSelected_mem` relates it to the square root). -/
def renderSelected (cam : Camera) (world : List Block) : List Block :=
  world.filter (fun b => hDistSq cam b < 225)

/-- The depth-sorted working list of `drawWorld`: filter by render distance and
sort farthest-first (a stable comparator sort, modelled by insertion sort). -/
def sortedBlocks (cam : Camera) (world : List Block) : List Block :=
  List.insertionSort (fartherFirst cam) (renderSelected cam world)

/-- The blocks `drawWorld` actually rasterizes, in order: the sorted working
list minus the `air` blocks. -/
def drawnBlocks (cam : Camera) (world : List Block) : List Block :=
  (sortedBlocks cam world).filter (fun b => b.type != BlockType.air)

/-- `WORLD_SIZE` of the 3D variants. -/
def WORLD_SIZE : ℕ := 30

/-- The flat three-layer base terrain shared by `generateFlatWorld` and
`generateVillage`: grass at `y = 0` over dirt at `y = -1` and `y = -2`, for
every `(x, z)` column of the world footprint. -/
def flatBase : List Block :=
  (List.range WORLD_SIZE).flatMap (fun x =>
    (List.range WORLD_SIZE).flatMap (fun z =>
      [⟨BlockType.grass, x, 0, z⟩, ⟨BlockType.dirt, x, -1, z⟩, ⟨BlockType.dirt, x, -2, z⟩]))

/-- `buildHouse(startX, startZ, width, depth, height)`: for each storey `y` in
`1..height` push the two x-run walls then the two z-run walls in `planks`, then
a full `wood` roof at `height + 1`, then carve a two-high doorway of `air`
blocks centered on the front wall. -/
def buildHouse (startX startZ : ℤ) (width depth height : ℕ) : List Block :=
  ((List.range height).flatMap (fun yi =>
    let y : ℤ := 1 + yi
    ((List.range width).flatMap (fun xi =>
      let x := startX + xi
      [⟨BlockType.planks, x, y, startZ⟩, ⟨BlockType.planks, x, y, startZ + depth - 1⟩]))
    ++ ((List.range depth).flatMap (fun zi =>
      let z := startZ + zi
      [⟨BlockType.planks, startX, y, z⟩, ⟨BlockType.planks, startX + width - 1, y, z⟩]))))
  ++ ((List.range width).flatMap (fun xi =>
    (List.range depth).map (fun zi =>
      ⟨BlockType.wood, startX + xi, (height : ℤ) + 1, startZ + zi⟩)))
  ++ [⟨BlockType.air, startX + (width / 2 : ℕ), 1, startZ⟩,
      ⟨BlockType.air, startX + (width / 2 : ℕ), 2, startZ⟩]

/-- `generateVillage`: the flat base, four hard-coded houses, and the
cobblestone plaza over `x, z ∈ [10, 12]` at `y = 1`.  The ambient random
source (`Math.random`) is modelled as a stream `rand` handed to every world
generator; this generator never samples it. -/
def generateVillage (_rand : ℕ → ℚ) : List Block :=
  flatBase
  ++ buildHouse 5 5 6 6 3
  ++ buildHouse 13 5 5 5 3
  ++ buildHouse 5 13 7 6 3
  ++ buildHouse 14 14 6 6 4
  ++ (List.range 3).flatMap (fun xi =>
    (List.range 3).map (fun zi => ⟨BlockType.cobblestone, 10 + xi, 1, 10 + zi⟩))

/-- A crafting ingredient `{ type, count }`. -/
structure Ingredient where
  type : BlockType
  count : ℤ
  deriving DecidableEq, Repr

/-- A crafting recipe; the purely presentational `id` and `name` strings of the
source are omitted. -/
structure Recipe where
  result : BlockType
  resultCount : ℤ
  ingredients : List Ingredient
  deriving DecidableEq, Repr

/-- The fixed recipe list of `InventoryMenu`: one wood into four planks, one
cobblestone into one stone. -/
def recipes : List Recipe :=
  [⟨BlockType.planks, 4, [⟨BlockType.wood, 1⟩]⟩,
   ⟨BlockType.stone, 1, [⟨BlockType.cobblestone, 1⟩]⟩]

/-- `canCraft` of `InventoryMenu` (re-checked inside `handleCraft`): every
ingredient's first inventory slot of its type exists and holds at least the
required count. -/
def canCraft (inv : List InventoryItem) (recipe : Recipe) : Bool :=
  recipe.ingredients.all (fun ingredient =>
    match inv.find? (fun i => i.type == ingredient.type) with
    | some item => decide (ingredient.count ≤ item.count)
    | none => false)

/-- The source's `findIndex` + in-place slot update: add `δ` to the count of
the first slot whose type is `ty`, leaving the inventory unchanged when no such
slot exists. -/
def adjustFirst (ty : BlockType) (δ : ℤ) : List InventoryItem → List InventoryItem
  | [] => []
  | i :: rest =>
    if i.type == ty then { i with count := i.count + δ } :: rest
    else i :: adjustFirst ty δ rest

/-- The `ingredients.forEach` pass of `handleCraft`: subtract each ingredient's
count from the first slot of its type, in ingredient order. -/
def craftFold (ings : List Ingredient) (inv : List InventoryItem) : List InventoryItem :=
  ings.foldl (fun acc ingredient => adjustFirst ingredient.type (-ingredient.count) acc) inv

/-- `handleCraft` of `part_001`: when `canCraft` holds, subtract each
ingredient's count from the first slot of its type, then add `resultCount` to
the first slot of the result type, all in one inventory update; otherwise leave
the inventory untouched. -/
def handleCraft (inv : List InventoryItem) (recipe : Recipe) : List InventoryItem :=
  if canCraft inv recipe then
    adjustFirst recipe.result recipe.resultCount (craftFold recipe.ingredients inv)
  else inv

/-- The count held by the first inventory slot of type `ty` (0 when absent),
matching how both `canCraft` and the slot updates address the inventory. -/
def countOf (inv : List InventoryItem) (ty : BlockType) : ℤ :=
  match inv.find? (fun i => i.type == ty) with
  | some item => item.count
  | none => 0

/-- The camera state of the motion model, over `ℝ` (its clamp bound uses
`Math.PI` and its drive vector uses live trigonometry of `yaw`). -/
structure CameraR where
  x : ℝ
  y : ℝ
  z : ℝ
  pitch : ℝ
  yaw : ℝ

/-- The continuous key-state set sampled by the motion tick. -/
structure Keys where
  w : Bool
  s : Bool
  a : Bool
  d : Bool
  space : Bool
  shift : Bool

/-- One `moveInterval` tick of `part_001`: accumulate the per-key deltas at
`speed = 0.2` along `(sin yaw, cos yaw)`, then clamp `x`/`z` to
`[0, WORLD_SIZE - 1]` and `y` to `[2, 20]`. -/
noncomputable def moveTick (keys : Keys) (prev : CameraR) : CameraR :=
  let speed : ℝ := 0.2
  let forward := Real.cos prev.yaw
  let side := Real.sin prev.yaw
  let newX := prev.x
  let newZ := prev.z
  let newY := prev.y
  let newX := if keys.w then newX + side * speed else newX
  let newZ := if keys.w then newZ - forward * speed else newZ
  let newX := if keys.s then newX - side * speed else newX
  let newZ := if keys.s then newZ + forward * speed else newZ
  let newX := if keys.a then newX - forward * speed else newX
  let newZ := if keys.a then newZ - side * speed else newZ
  let newX := if keys.d then newX + forward * speed else newX
  let newZ := if keys.d then newZ + side * speed else newZ
  let newY := if keys.space then newY + speed else newY
  let newY := if keys.shift then newY - speed else newY
  { prev with
    x := max 0 (min (30 - 1) newX)
    z := max 0 (min (30 - 1) newZ)
    y := max 2 (min 20 newY) }

/-- Fold a sequence of motion ticks from an initial camera. -/
noncomputable def runTicks (cam : CameraR) (ks : List Keys) : CameraR :=
  ks.foldl (fun c k => moveTick k c) cam

/-- `handleMouseMove` of `part_001` while the pointer is locked: yaw moves
freely by `movementX * 0.002`; pitch moves by `movementY * 0.002` clamped to
`[-π/2, π/2]`. -/
noncomputable def handleMouseMove (movementX movementY : ℝ) (prev : CameraR) : CameraR :=
  let sensitivity : ℝ := 0.002
  { prev with
    yaw := prev.yaw + movementX * sensitivity
    pitch := max (-(Real.pi / 2)) (min (Real.pi / 2) (prev.pitch + movementY * sensitivity)) }

/-- The bounds the motion tick's clamp promises: `x, z ∈ [0, WORLD_SIZE - 1]`
and `y ∈ [2, 20]`. -/
def inWorldBounds (c : CameraR) : Prop :=
  0 ≤ c.x ∧ c.x ≤ 29 ∧ 0 ≤ c.z ∧ c.z ≤ 29 ∧ 2 ≤ c.y ∧ c.y ≤ 20

/-- One targeting action: a left-click place of the selected type or a
right-click remove, each performed at some camera position and look direction. -/
inductive Action where
  | placeAct (cam : Camera) (t : LookTrig) (sel : BlockType)
  | removeAct (cam : Camera) (t : LookTrig)
  deriving DecidableEq

/-- The state transition of one action (the toast is dropped). -/
def stepAction (st : GameState) (a : Action) : GameState :=
  match a with
  | .placeAct cam t sel => (handleCanvasClick cam t sel st).1
  | .removeAct cam t => (handleContextMenu cam t st).1

/-- Run a sequence of place/remove actions. -/
def runActions (st : GameState) (acts : List Action) : GameState :=
  acts.foldl stepAction st

/-- The number of world blocks of trackable (non-`air`) types. -/
def trackableCount (world : List Block) : ℤ :=
  ((world.filter (fun b => b.type != BlockType.air)).length : ℤ)

/-- The sum of all inventory counts. -/
def inventoryTotal (inv : List InventoryItem) : ℤ :=
  (inv.map (fun i => i.count)).sum

/-- The conserved quantity: inventory total plus trackable world blocks. -/
def conservedTotal (st : GameState) : ℤ :=
  inventoryTotal st.inventory + trackableCount st.world

/-- The shape the reachable inventories of `part_001` keep forever: slot types
are pairwise distinct, every non-`air` type has a slot, and no slot is `air`
(true of `initialInventory`, and both handlers only rewrite counts). -/
def invWF (inv : List InventoryItem) : Prop :=
  (inv.map (fun i => i.type)).Nodup ∧
  (∀ ty : BlockType, ty ≠ BlockType.air → ∃ i ∈ inv, i.type = ty) ∧
  (∀ i ∈ inv, i.type ≠ BlockType.air)

instance (inv : List InventoryItem) : Decidable (invWF inv) :=
  inferInstanceAs (Decidable (_ ∧ _ ∧ _))

/-- The occupancy test of the removal loop at distance `d`. -/
def cellOccupied (cam : Camera) (t : LookTrig) (world : List Block) (d : ℚ) : Bool :=
  world.any (blockAtCell (cellAt cam t d))

/-- The look direction at `yaw = 0`, `pitch = 0` (so `sin = 0`, `cos = 1` for
both angles): straight down the positive `z` axis. -/
def lookAxisZ : LookTrig := ⟨0, 1, 0, 1⟩

/-! ## Theorems -/

/-- C2: a world point whose camera-relative forward depth after the
yaw-then-pitch rotation is at most 0.1 projects to the sentinel
`ProjectedPoint` with `distance = -1`; and a cube at least one of whose eight
projected corners carries that sentinel is skipped entirely by `drawCube` (it
draws nothing, with no partial clipping). -/
theorem claim_near_plane_cull (cam : Camera) (t : LookTrig) (canvasW canvasH : ℚ)
    (p : ℚ × ℚ × ℚ) (x y z : ℤ) :
    (forwardDepth cam t p ≤ 1/10 →
      project3DTo2D cam t canvasW canvasH p = ⟨0, 0, -1⟩) ∧
    ((∃ c ∈ cubeCorners x y z,
        (project3DTo2D cam t canvasW canvasH c).distance = -1) →
      drawCube cam t canvasW canvasH x y z = none) := by
  constructor
  · intro h
    simp only [forwardDepth] at h
    simp only [project3DTo2D, if_pos h]
  · rintro ⟨c, hc, hdist⟩
    have hany : ((cubeCorners x y z).map (project3DTo2D cam t canvasW canvasH)).any
        (fun q => decide (q.distance < 0)) = true := by
      refine List.any_eq_true.mpr ⟨project3DTo2D cam t canvasW canvasH c,
        List.mem_map_of_mem _ hc, ?_⟩
      rw [decide_eq_true_eq, hdist]
      norm_num
    simp only [drawCube, hany, if_true]

/-- Witness for C2 at concrete inputs: the point five units behind the camera
is culled to the sentinel, and the cube behind the camera is skipped. -/
theorem claim_near_plane_cull_witness :
    (forwardDepth ⟨0, 0, 0⟩ lookAxisZ ((0 : ℚ), (0 : ℚ), (-5 : ℚ)) ≤ 1/10 ∧
      project3DTo2D ⟨0, 0, 0⟩ lookAxisZ 800 600 ((0 : ℚ), (0 : ℚ), (-5 : ℚ)) = ⟨0, 0, -1⟩) ∧
    ((∃ c ∈ cubeCorners 0 0 (-3),
        (project3DTo2D ⟨0, 0, 0⟩ lookAxisZ 800 600 c).distance = -1) ∧
      drawCube ⟨0, 0, 0⟩ lookAxisZ 800 600 0 0 (-3) = none) := by
  have h1 : forwardDepth ⟨0, 0, 0⟩ lookAxisZ ((0 : ℚ), (0 : ℚ), (-5 : ℚ)) ≤ 1/10 := by
    norm_num [forwardDepth, lookAxisZ]
  have h2 : ∃ c ∈ cubeCorners 0 0 (-3),
      (project3DTo2D ⟨0, 0, 0⟩ lookAxisZ 800 600 c).distance = -1 := by
    refine ⟨((0 : ℚ), (0 : ℚ), (-3 : ℚ)), ?_, ?_⟩
    · norm_num [cubeCorners]
    · norm_num [project3DTo2D, lookAxisZ]
  exact ⟨⟨h1, (claim_near_plane_cull ⟨0, 0, 0⟩ lookAxisZ 800 600 _ 0 0 (-3)).1 h1⟩,
         ⟨h2, (claim_near_plane_cull ⟨0, 0, 0⟩ lookAxisZ 800 600 ((0 : ℚ), (0 : ℚ), (-5 : ℚ)) 0 0 (-3)).2 h2⟩⟩

/-- C8: with `pitch = 0` and `yaw = 0` (both sines 0, both cosines 1), a point
directly in front of the camera at forward offset `d > 0.1` projects exactly to
the canvas center with distance `d`. -/
theorem claim_projection_identity (cam : Camera) (canvasW canvasH : ℚ) (d : ℚ)
    (h : 1/10 < d) :
    project3DTo2D cam ⟨0, 1, 0, 1⟩ canvasW canvasH (cam.x, cam.y, cam.z + d) =
      ⟨canvasW / 2, canvasH / 2, d⟩ := by
  simp only [project3DTo2D]
  rw [if_neg (by push_neg; nlinarith)]
  have hX : ((cam.x - cam.x) * 1 - (cam.z + d - cam.z) * 0) * 500 = 0 := by ring
  have hY : -((cam.y - cam.y) * 1 + ((cam.x - cam.x) * 0 + (cam.z + d - cam.z) * 1) * 0) * 500
      = 0 := by ring
  have hD : -(cam.y - cam.y) * 0 + ((cam.x - cam.x) * 0 + (cam.z + d - cam.z) * 1) * 1 = d := by
    ring
  rw [hX, hY, hD, zero_div, zero_add, zero_add]

/-- Witness for C8: from camera `(1, 2, 3)` on an 800×600 canvas, the point 3
units straight ahead lands on the canvas center `(400, 300)` at distance 3. -/
theorem claim_projection_identity_witness :
    (1/10 : ℚ) < 3 ∧
    project3DTo2D ⟨1, 2, 3⟩ ⟨0, 1, 0, 1⟩ 800 600 ((1 : ℚ), (2 : ℚ), (6 : ℚ)) =
      ⟨400, 300, 3⟩ :=
  ⟨by norm_num, by
    have h := claim_projection_identity ⟨1, 2, 3⟩ 800 600 3 (by norm_num)
    norm_num at h
    exact h⟩

/-- C6: the motion tick's final clamp keeps `x, z ∈ [0, worldSize - 1] = [0, 29]`
and `y ∈ [2, 20]` after any tick, from any camera, after any preceding tick
sequence and for any key state; a pointer-move update keeps pitch in
`[-π/2, π/2]`; and yaw is unbounded (any target yaw is reachable in one move). -/
theorem claim_camera_bounds :
    (∀ (cam : CameraR) (ks : List Keys) (k : Keys),
        inWorldBounds (moveTick k (runTicks cam ks))) ∧
    (∀ (cam : CameraR) (mx my : ℝ),
        -(Real.pi / 2) ≤ (handleMouseMove mx my cam).pitch ∧
        (handleMouseMove mx my cam).pitch ≤ Real.pi / 2) ∧
    (∀ (cam : CameraR) (target : ℝ), ∃ mx my : ℝ,
        (handleMouseMove mx my cam).yaw = target) := by
  refine ⟨fun cam ks k => ?_, fun cam mx my => ⟨?_, ?_⟩, fun cam target => ?_⟩
  · simp only [moveTick, inWorldBounds]
    refine ⟨le_max_left _ _, max_le (by norm_num) ((min_le_left _ _).trans (by norm_num)),
      le_max_left _ _, max_le (by norm_num) ((min_le_left _ _).trans (by norm_num)),
      le_max_left _ _, max_le (by norm_num) ((min_le_left _ _).trans (by norm_num))⟩
  · simp only [handleMouseMove]
    exact le_max_left _ _
  · simp only [handleMouseMove]
    exact max_le (by linarith [Real.pi_pos]) (min_le_left _ _)
  · refine ⟨(target - cam.yaw) / 0.002, 0, ?_⟩
    simp only [handleMouseMove]
    rw [div_mul_cancel₀ _ (by norm_num : (0.002 : ℝ) ≠ 0)]
    ring

/-- C9: `generateVillage` never samples the ambient random stream, so two runs
(with the fixed world size) produce identical block sequences — in particular
identical house walls, roofs, doorways and plaza blocks. -/
theorem claim_village_deterministic :
    ∀ r₁ r₂ : ℕ → ℚ, generateVillage r₁ = generateVillage r₂ :=
  fun _ _ => rfl

/-- When no scanned distance has an occupied cell, the removal loop falls
through and changes nothing. -/
theorem removeScan_of_no_hit (cam : Camera) (t : LookTrig) (st : GameState) :
    ∀ ds : List ℚ, (∀ d ∈ ds, cellOccupied cam t st.world d = false) →
      removeScan cam t st ds = (st, none) := by
  intro ds
  induction ds with
  | nil => intro _; rfl
  | cons d rest ih =>
    intro h
    have hf : st.world.find? (blockAtCell (cellAt cam t d)) = none := by
      rw [List.find?_eq_none]
      intro b hb
      have hocc := h d (List.mem_cons_self d rest)
      rw [cellOccupied, List.any_eq_false] at hocc
      exact hocc b hb
    simp only [removeScan, hf]
    exact ih fun d' hd' => h d' (List.mem_cons_of_mem _ hd')

/-- The removal loop stops at the first distance whose cell is occupied,
removing the first world block at that cell and crediting its type. -/
theorem removeScan_first_hit (cam : Camera) (t : LookTrig) (st : GameState) :
    ∀ (pre : List ℚ) (d : ℚ) (post : List ℚ),
      (∀ d' ∈ pre, cellOccupied cam t st.world d' = false) →
      cellOccupied cam t st.world d = true →
      ∃ b, st.world.find? (blockAtCell (cellAt cam t d)) = some b ∧
        removeScan cam t st (pre ++ d :: post) =
          ({ world := st.world.eraseP (blockAtCell (cellAt cam t d)),
             inventory := st.inventory.map (fun i =>
               if i.type == b.type then { i with count := i.count + 1 } else i) },
           some (Toast.removed b.type)) := by
  intro pre
  induction pre with
  | nil =>
    intro d post _ hd
    rw [cellOccupied, List.any_eq_true] at hd
    obtain ⟨x, hx, hpx⟩ := hd
    obtain ⟨b, hb⟩ := Option.isSome_iff_exists.mp
      (List.find?_isSome.mpr ⟨x, hx, hpx⟩)
    exact ⟨b, hb, by simp only [List.nil_append, removeScan, hb]⟩
  | cons d' pre' ih =>
    intro d post hpre hd
    have hf : st.world.find? (blockAtCell (cellAt cam t d')) = none := by
      rw [List.find?_eq_none]
      intro b hb
      have hocc := hpre d' (List.mem_cons_self d' pre')
      rw [cellOccupied, List.any_eq_false] at hocc
      exact hocc b hb
    obtain ⟨b, hb, hrec⟩ :=
      ih d post (fun x hx => hpre x (List.mem_cons_of_mem _ hx)) hd
    refine ⟨b, hb, ?_⟩
    rw [List.cons_append]
    simp only [removeScan, hf]
    exact hrec

/-- C3: `handleContextMenu` marches at distances 1, 1.5, …, 5; at the first
distance whose rounded cell holds a block it deletes exactly that (first
matching) block, credits its type, and examines no further cells; when no
scanned cell is occupied it leaves the state unchanged and shows no
notification. -/
theorem claim_remove_marching (cam : Camera) (t : LookTrig) (st : GameState) :
    ((∀ d ∈ reachDistances, cellOccupied cam t st.world d = false) →
      handleContextMenu cam t st = (st, none)) ∧
    (∀ (pre : List ℚ) (d : ℚ) (post : List ℚ),
      reachDistances = pre ++ d :: post →
      (∀ d' ∈ pre, cellOccupied cam t st.world d' = false) →
      cellOccupied cam t st.world d = true →
      ∃ b, st.world.find? (blockAtCell (cellAt cam t d)) = some b ∧
        handleContextMenu cam t st =
          ({ world := st.world.eraseP (blockAtCell (cellAt cam t d)),
             inventory := st.inventory.map (fun i =>
               if i.type == b.type then { i with count := i.count + 1 } else i) },
           some (Toast.removed b.type)) ∧
        st.world.length = (st.world.eraseP (blockAtCell (cellAt cam t d))).length + 1) := by
  constructor
  · exact removeScan_of_no_hit cam t st reachDistances
  · intro pre d post hsplit hpre hd
    obtain ⟨b, hb, hrun⟩ := removeScan_first_hit cam t st pre d post hpre hd
    refine ⟨b, hb, by rw [handleContextMenu, hsplit]; exact hrun, ?_⟩
    have hmem := List.mem_of_find?_eq_some hb
    have hpb := List.find?_some hb
    rw [List.length_eraseP_of_mem hmem hpb]
    have : 0 < st.world.length := List.length_pos.mpr (List.ne_nil_of_mem hmem)
    omega

/-- Witness for C3: with an empty world the remove is a silent no-op, and with
a single grass block two cells ahead the scan misses at distance 1, hits at
distance 1.5, and removes that block while crediting grass. -/
theorem claim_remove_marching_witness :
    handleContextMenu ⟨0, 5, 0⟩ lookAxisZ ⟨[], initialInventory⟩ =
      (⟨[], initialInventory⟩, none) ∧
    (∃ b, [(⟨BlockType.grass, 0, 5, 2⟩ : Block)].find?
          (blockAtCell (cellAt ⟨0, 5, 0⟩ lookAxisZ (3/2))) = some b ∧
      handleContextMenu ⟨0, 5, 0⟩ lookAxisZ ⟨[⟨BlockType.grass, 0, 5, 2⟩], initialInventory⟩ =
        ({ world := [(⟨BlockType.grass, 0, 5, 2⟩ : Block)].eraseP
             (blockAtCell (cellAt ⟨0, 5, 0⟩ lookAxisZ (3/2))),
           inventory := initialInventory.map (fun i =>
             if i.type == b.type then { i with count := i.count + 1 } else i) },
         some (Toast.removed b.type)) ∧
      ([(⟨BlockType.grass, 0, 5, 2⟩ : Block)] : List Block).length =
        ([(⟨BlockType.grass, 0, 5, 2⟩ : Block)].eraseP
          (blockAtCell (cellAt ⟨0, 5, 0⟩ lookAxisZ (3/2)))).length + 1) := by
  constructor
  · exact (claim_remove_marching ⟨0, 5, 0⟩ lookAxisZ ⟨[], initialInventory⟩).1
      (fun d _ => rfl)
  · exact (claim_remove_marching ⟨0, 5, 0⟩ lookAxisZ
      ⟨[⟨BlockType.grass, 0, 5, 2⟩], initialInventory⟩).2
      [1] (3/2) [2, 5/2, 3, 7/2, 4, 9/2, 5] rfl
      (by
        intro d' hd'
        have hd1 : d' = 1 := by simpa using hd'
        subst hd1
        norm_num [cellOccupied, blockAtCell, cellAt, lookForward, lookAxisZ, round_eq])
      (by norm_num [cellOccupied, blockAtCell, cellAt, lookForward, lookAxisZ, round_eq])

/-- C5 counterexample: in `part_000` the inventory has only grass, dirt, stone
and wood slots; removing the planks block at `(0, 5, 2)` (camera at `(0, 5, 0)`
looking down the z axis) deletes the block yet returns the inventory unchanged —
no planks slot exists, none is created, and no count is credited anywhere. -/
theorem claim_remove_credit_counterexample :
    handleContextMenu ⟨0, 5, 0⟩ lookAxisZ ⟨[⟨BlockType.planks, 0, 5, 2⟩], p0Inventory⟩ =
      (⟨[], p0Inventory⟩, some (Toast.removed BlockType.planks)) ∧
    (∀ i ∈ p0Inventory, i.type ≠ BlockType.planks) := by
  constructor
  · norm_num [handleContextMenu, reachDistances, removeScan, cellAt, lookForward,
      blockAtCell, p0Inventory, lookAxisZ, round_eq, List.find?]
    decide
  · decide

/-- A removal that reports type `ty` rewrote the inventory with the
increment-matching-slots map for `ty`. -/
theorem removeScan_inventory (cam : Camera) (t : LookTrig) (st : GameState) :
    ∀ (ds : List ℚ) (g : GameState) (ty : BlockType),
      removeScan cam t st ds = (g, some (Toast.removed ty)) →
      g.inventory = st.inventory.map (fun i =>
        if i.type == ty then { i with count := i.count + 1 } else i) := by
  intro ds
  induction ds with
  | nil =>
    intro g ty h
    simp only [removeScan] at h
    have h2 := congrArg Prod.snd h
    simp at h2
  | cons d rest ih =>
    intro g ty h
    rcases hf : st.world.find? (blockAtCell (cellAt cam t d)) with _ | b
    · simp only [removeScan, hf] at h
      exact ih g ty h
    · simp only [removeScan, hf] at h
      have h1 := congrArg Prod.fst h
      have h2 := congrArg Prod.snd h
      simp only at h1 h2
      have hbty : b.type = ty := by
        injection h2 with h3
        injection h3
      subst hbty
      cases h1
      rfl

/-- C5 amended: a remove that hits a block credits its type only through the
slots that already exist: the inventory is rewritten by incrementing every slot
of the removed type, so when no slot of that type exists the inventory comes
back unchanged — no slot is created and the removed unit is lost (as happens
for the planks and cobblestone village blocks against `part_000`'s four-slot
inventory). -/
theorem claim_remove_credit_amended (cam : Camera) (t : LookTrig) (st : GameState)
    (g : GameState) (ty : BlockType)
    (h : handleContextMenu cam t st = (g, some (Toast.removed ty))) :
    g.inventory = st.inventory.map (fun i =>
      if i.type == ty then { i with count := i.count + 1 } else i) ∧
    ((∀ i ∈ st.inventory, i.type ≠ ty) → g.inventory = st.inventory) := by
  have hg := removeScan_inventory cam t st reachDistances g ty h
  refine ⟨hg, fun hnone => ?_⟩
  rw [hg]
  have : st.inventory.map (fun i =>
      if i.type == ty then { i with count := i.count + 1 } else i) =
      st.inventory.map id :=
    List.map_congr_left fun i hi => by
      have : (i.type == ty) = false := by
        simpa using hnone i hi
      simp [this]
  rw [this, List.map_id]

/-- Witness for C5's amended statement, at the counterexample's concrete
scenario: the hit reports planks, and since `p0Inventory` has no planks slot
the inventory comes back unchanged. -/
theorem claim_remove_credit_amended_witness :
    (⟨[], p0Inventory⟩ : GameState).inventory = p0Inventory.map (fun i =>
      if i.type == BlockType.planks then { i with count := i.count + 1 } else i) ∧
    ((∀ i ∈ p0Inventory, i.type ≠ BlockType.planks) →
      (⟨[], p0Inventory⟩ : GameState).inventory = p0Inventory) := by
  have h : handleContextMenu ⟨0, 5, 0⟩ lookAxisZ
      ⟨[⟨BlockType.planks, 0, 5, 2⟩], p0Inventory⟩ =
      ((⟨[], p0Inventory⟩ : GameState), some (Toast.removed BlockType.planks)) := by
    norm_num [handleContextMenu, reachDistances, removeScan, cellAt, lookForward,
      blockAtCell, p0Inventory, lookAxisZ, round_eq, List.find?]
    decide
  exact claim_remove_credit_amended ⟨0, 5, 0⟩ lookAxisZ
    ⟨[⟨BlockType.planks, 0, 5, 2⟩], p0Inventory⟩ ⟨[], p0Inventory⟩ BlockType.planks h

/-- Rewriting the matching slots with a count-shifting map changes the
inventory total by `δ` per matching slot. -/
theorem inventoryTotal_map_if (g : InventoryItem → InventoryItem) (δ : ℤ)
    (hg : ∀ i, (g i).count = i.count + δ) (ty : BlockType) :
    ∀ inv : List InventoryItem,
      inventoryTotal (inv.map (fun i => if i.type == ty then g i else i))
        = inventoryTotal inv
          + δ * ((inv.filter (fun i => i.type == ty)).length : ℤ) := by
  intro inv
  induction inv with
  | nil => simp [inventoryTotal]
  | cons i rest ih =>
    by_cases hi : (i.type == ty) = true
    · simp only [List.map_cons, List.filter_cons, hi, if_true, inventoryTotal,
        List.sum_cons, List.length_cons] at ih ⊢
      rw [hg i]
      push_cast
      rw [ih]
      ring
    · simp only [List.map_cons, List.filter_cons, hi, if_false, Bool.false_eq_true,
        inventoryTotal, List.sum_cons] at ih ⊢
      rw [ih]
      ring

/-- With pairwise-distinct slot types and a slot of type `ty` present, exactly
one slot matches `ty`. -/
theorem filter_type_length_one :
    ∀ {inv : List InventoryItem} {ty : BlockType},
      (inv.map (fun i => i.type)).Nodup → (∃ i ∈ inv, i.type = ty) →
      (inv.filter (fun i => i.type == ty)).length = 1 := by
  intro inv
  induction inv with
  | nil => intro ty _ hex; simp at hex
  | cons i rest ih =>
    intro ty hnd hex
    simp only [List.map_cons, List.nodup_cons] at hnd
    obtain ⟨hni, hndr⟩ := hnd
    by_cases hi : i.type = ty
    · have hfi : (i.type == ty) = true := by simp [hi]
      have hrest : rest.filter (fun j => j.type == ty) = [] := by
        rw [List.filter_eq_nil_iff]
        intro j hj
        simp only [beq_iff_eq]
        intro hjt
        exact hni (hjt.trans hi.symm ▸ List.mem_map_of_mem (fun k => k.type) hj)
      simp [List.filter_cons, hfi, hrest]
    · have hfi : (i.type == ty) = false := by simp [hi]
      obtain ⟨j, hj, hjt⟩ := hex
      rcases List.mem_cons.mp hj with rfl | hjr
      · exact absurd hjt hi
      · simp only [List.filter_cons, hfi, Bool.false_eq_true, if_false]
        exact ih hndr ⟨j, hjr, hjt⟩

/-- Dropping the first block matched by `p` removes one `q`-satisfying block
when the match satisfies `q`, and none otherwise. -/
theorem filterLength_eraseP (p q : Block → Bool) :
    ∀ (world : List Block) (b : Block), world.find? p = some b →
      ((world.eraseP p).filter q).length + (if q b then 1 else 0)
        = (world.filter q).length := by
  intro world
  induction world with
  | nil => intro b h; simp at h
  | cons c rest ih =>
    intro b h
    by_cases hc : p c = true
    · rw [List.find?_cons_of_pos _ hc] at h
      have hb : c = b := by injection h
      subst hb
      rw [List.eraseP_cons_of_pos hc]
      cases hq : q c <;> simp [List.filter_cons, hq]
    · rw [List.find?_cons_of_neg _ hc] at h
      rw [List.eraseP_cons_of_neg hc]
      have hih := ih b h
      cases hq : q c <;> simp [List.filter_cons, hq] <;> omega

/-- Inventory rewrites that keep each slot's type preserve the well-formedness
invariant. -/
theorem invWF_map_type_preserving (f : InventoryItem → InventoryItem)
    (hf : ∀ i, (f i).type = i.type) (inv : List InventoryItem) (h : invWF inv) :
    invWF (inv.map f) := by
  obtain ⟨hnd, hex, hair⟩ := h
  have hmap : (inv.map f).map (fun i => i.type) = inv.map (fun i => i.type) := by
    rw [List.map_map]
    exact List.map_congr_left fun i _ => hf i
  refine ⟨hmap ▸ hnd, fun ty hty => ?_, fun i hi => ?_⟩
  · obtain ⟨i, hi, hit⟩ := hex ty hty
    exact ⟨f i, List.mem_map_of_mem f hi, (hf i).trans hit⟩
  · obtain ⟨j, hj, rfl⟩ := List.mem_map.mp hi
    rw [hf j]
    exact hair j hj

/-- One place action preserves the conserved total and the inventory shape. -/
theorem place_step (cam : Camera) (t : LookTrig) (sel : BlockType) (st : GameState)
    (h : invWF st.inventory) :
    conservedTotal (handleCanvasClick cam t sel st).1 = conservedTotal st ∧
    invWF (handleCanvasClick cam t sel st).1.inventory := by
  rcases hf : st.inventory.find? (fun i => i.type == sel) with _ | item
  · simp only [handleCanvasClick, hf]
    exact ⟨trivial, h⟩
  · by_cases hc : 0 < item.count
    · by_cases ho : st.world.any (blockAtCell (cellAt cam t 3)) = true
      · simp only [handleCanvasClick, hf, if_pos hc, ho, if_true]
        exact ⟨trivial, h⟩
      · simp only [handleCanvasClick, hf, if_pos hc, ho, Bool.false_eq_true, if_false]
        have hmem : item ∈ st.inventory := List.mem_of_find?_eq_some hf
        have hty : item.type = sel := by
          have := List.find?_some hf
          simpa using this
        have hair : sel ≠ BlockType.air := hty ▸ h.2.2 item hmem
        constructor
        · simp only [conservedTotal, trackableCount]
          rw [List.filter_append,
            inventoryTotal_map_if (fun i => { i with count := i.count - 1 }) (-1)
              (fun i => by simp; ring) sel st.inventory,
            filter_type_length_one h.1 ⟨item, hmem, hty⟩]
          have hone : ([(⟨sel, (cellAt cam t 3).1, (cellAt cam t 3).2.1,
              (cellAt cam t 3).2.2⟩ : Block)].filter
                (fun b => b.type != BlockType.air)).length = 1 := by
            simp [List.filter_cons, hair]
          rw [List.length_append, hone]
          push_cast
          ring
        · exact invWF_map_type_preserving _
            (fun i => by by_cases hh : (i.type == sel) = true <;> simp [hh]) _ h
    · simp only [handleCanvasClick, hf, if_neg hc]
      exact ⟨trivial, h⟩

/-- Every step of the removal loop preserves the conserved total and the
inventory shape. -/
theorem removeScan_step (cam : Camera) (t : LookTrig) (st : GameState)
    (h : invWF st.inventory) :
    ∀ ds : List ℚ,
      conservedTotal (removeScan cam t st ds).1 = conservedTotal st ∧
      invWF (removeScan cam t st ds).1.inventory := by
  intro ds
  induction ds with
  | nil => exact ⟨rfl, h⟩
  | cons d rest ih =>
    rcases hf : st.world.find? (blockAtCell (cellAt cam t d)) with _ | b
    · simp only [removeScan, hf]
      exact ih
    · simp only [removeScan, hf]
      have hlen := filterLength_eraseP (blockAtCell (cellAt cam t d))
        (fun bb => bb.type != BlockType.air) st.world b hf
      constructor
      · simp only [conservedTotal, trackableCount]
        rw [inventoryTotal_map_if (fun i => { i with count := i.count + 1 }) 1
          (fun i => by simp) b.type st.inventory]
        by_cases hair : b.type = BlockType.air
        · have hq : (b.type != BlockType.air) = false := by simp [hair]
          simp only [hq, Bool.false_eq_true, if_false] at hlen
          have hzero : (st.inventory.filter (fun i => i.type == b.type)).length = 0 := by
            rw [List.length_eq_zero, List.filter_eq_nil_iff]
            intro i hi
            simp only [beq_iff_eq]
            intro hit
            exact h.2.2 i hi (hit.trans hair)
          rw [hzero]
          push_cast
          omega
        · have hq : (b.type != BlockType.air) = true := by simp [hair]
          simp only [hq, if_true] at hlen
          rw [filter_type_length_one h.1 (h.2.1 b.type hair)]
          push_cast
          omega
      · exact invWF_map_type_preserving _
          (fun i => by by_cases hh : (i.type == b.type) = true <;> simp [hh]) _ h

/-- One action (place or remove) preserves the conserved total and the
inventory shape. -/
theorem step_preserves (st : GameState) (a : Action) (h : invWF st.inventory) :
    conservedTotal (stepAction st a) = conservedTotal st ∧
    invWF (stepAction st a).inventory := by
  cases a with
  | placeAct cam t sel => exact place_step cam t sel st h
  | removeAct cam t => exact removeScan_step cam t st h reachDistances

/-- C1: over any sequence of place and remove actions from a well-formed
inventory, the sum of all inventory counts plus the number of non-`air` world
blocks never changes: a successful place moves one unit from the selected
type's slot into the world, a successful remove moves one unit back into the
removed type's slot, and every rejected action leaves the state untouched. -/
theorem claim_inventory_conservation (st : GameState) (acts : List Action)
    (h : invWF st.inventory) :
    conservedTotal (runActions st acts) = conservedTotal st := by
  induction acts generalizing st with
  | nil => rfl
  | cons a rest ih =>
    have hstep := step_preserves st a h
    have hrun : runActions st (a :: rest) = runActions (stepAction st a) rest := rfl
    rw [hrun, ih (stepAction st a) hstep.2, hstep.1]

/-- Witness for C1: `part_001`'s starting inventory is well-formed, and a
concrete remove-then-place pair conserves the total. -/
theorem claim_inventory_conservation_witness :
    invWF initialInventory ∧
    conservedTotal (runActions ⟨[⟨BlockType.grass, 0, 5, 2⟩], initialInventory⟩
        [Action.removeAct ⟨0, 5, 0⟩ lookAxisZ,
         Action.placeAct ⟨0, 5, 0⟩ lookAxisZ BlockType.grass]) =
      conservedTotal ⟨[⟨BlockType.grass, 0, 5, 2⟩], initialInventory⟩ :=
  ⟨by decide, claim_inventory_conservation _ _ (by decide)⟩

/-- C4 counterexample: `part_002`'s `handleCanvasClick` (also cited by the
claim) performs no occupied-cell check.  With the camera at `(0, 5, 0)` looking
down the z axis the target cell `(0, 5, 2)` is already occupied, yet instead of
a silent no-op with world and inventory unchanged the handler inserts a second
block into that very cell and decrements the inventory. -/
theorem claim_place_guards_counterexample :
    ([(⟨BlockType.grass, 0, 5, 2⟩ : Block)].any
        (blockAtCell (cellAtP2 ⟨0, 5, 0⟩ 0 1)) = true) ∧
    handleCanvasClickP2 ⟨0, 5, 0⟩ 0 1 BlockType.grass
        ⟨[⟨BlockType.grass, 0, 5, 2⟩], p0Inventory⟩ =
      (⟨[⟨BlockType.grass, 0, 5, 2⟩, ⟨BlockType.grass, 0, 5, 2⟩],
        [⟨BlockType.grass, 63⟩, ⟨BlockType.dirt, 64⟩, ⟨BlockType.stone, 64⟩,
         ⟨BlockType.wood, 64⟩]⟩,
       some (Toast.placed BlockType.grass)) := by
  constructor
  · norm_num [blockAtCell, cellAtP2, round_eq]
  · norm_num [handleCanvasClickP2, cellAtP2, p0Inventory, round_eq, List.find?]
    decide

/-- C4 amended: the claimed guards are exactly those of the main variant's
`handleCanvasClick` (`part_001`): a missing slot or a non-positive count is a
no-op with the insufficient-resources toast; an occupied target cell is a
silent no-op; otherwise insertion and decrement happen together.  The
`part_002` variant instead places unconditionally whenever the count is
positive — even onto an occupied cell (still inserting and decrementing
together) — and its insufficient-inventory case is a silent no-op with no
notification. -/
theorem claim_place_guards_amended (cam : Camera) (t : LookTrig) (sel : BlockType)
    (st : GameState) (sy cy : ℚ) :
    (st.inventory.find? (fun i => i.type == sel) = none →
      handleCanvasClick cam t sel st = (st, some Toast.notEnough) ∧
      handleCanvasClickP2 cam sy cy sel st = (st, none)) ∧
    (∀ item, st.inventory.find? (fun i => i.type == sel) = some item →
      item.count ≤ 0 →
      handleCanvasClick cam t sel st = (st, some Toast.notEnough) ∧
      handleCanvasClickP2 cam sy cy sel st = (st, none)) ∧
    (∀ item, st.inventory.find? (fun i => i.type == sel) = some item →
      0 < item.count → st.world.any (blockAtCell (cellAt cam t 3)) = true →
      handleCanvasClick cam t sel st = (st, none)) ∧
    (∀ item, st.inventory.find? (fun i => i.type == sel) = some item →
      0 < item.count → st.world.any (blockAtCell (cellAt cam t 3)) = false →
      handleCanvasClick cam t sel st =
        ({ world := st.world ++ [⟨sel, (cellAt cam t 3).1, (cellAt cam t 3).2.1,
             (cellAt cam t 3).2.2⟩],
           inventory := st.inventory.map (fun i =>
             if i.type == sel then { i with count := i.count - 1 } else i) },
         some (Toast.placed sel))) ∧
    (∀ item, st.inventory.find? (fun i => i.type == sel) = some item →
      0 < item.count →
      handleCanvasClickP2 cam sy cy sel st =
        ({ world := st.world ++ [⟨sel, (cellAtP2 cam sy cy).1, (cellAtP2 cam sy cy).2.1,
             (cellAtP2 cam sy cy).2.2⟩],
           inventory := st.inventory.map (fun i =>
             if i.type == sel then { i with count := i.count - 1 } else i) },
         some (Toast.placed sel))) := by
  refine ⟨fun hf => ?_, fun item hf hc => ?_, fun item hf hc ho => ?_,
    fun item hf hc ho => ?_, fun item hf hc => ?_⟩
  · constructor <;> simp only [handleCanvasClick, handleCanvasClickP2, hf]
  · constructor <;>
      simp only [handleCanvasClick, handleCanvasClickP2, hf, if_neg (not_lt.mpr hc)]
  · simp only [handleCanvasClick, hf, if_pos hc, ho, if_true]
  · simp only [handleCanvasClick, hf, if_pos hc, ho, Bool.false_eq_true, if_false]
  · simp only [handleCanvasClickP2, hf, if_pos hc]

/-- Witness for C4's amended statement: selecting planks against `part_001`'s
initial inventory (whose planks slot holds 0) is a no-op with the
insufficient-resources toast, while `part_002`'s handler is silently a no-op. -/
theorem claim_place_guards_amended_witness :
    handleCanvasClick ⟨0, 5, 0⟩ lookAxisZ BlockType.planks ⟨[], initialInventory⟩ =
      (⟨[], initialInventory⟩, some Toast.notEnough) ∧
    handleCanvasClickP2 ⟨0, 5, 0⟩ 0 1 BlockType.planks ⟨[], initialInventory⟩ =
      (⟨[], initialInventory⟩, none) :=
  (claim_place_guards_amended ⟨0, 5, 0⟩ lookAxisZ BlockType.planks
    ⟨[], initialInventory⟩ 0 1).2.1 ⟨BlockType.planks, 0⟩ (by decide) (by decide)

/-- The render-distance test, squared form versus the source's square-root
form: `√(dx² + dz²) < 15` iff `dx² + dz² < 225`. -/
theorem renderSelected_sqrt (cam : Camera) (b : Block) :
    Real.sqrt ((hDistSq cam b : ℚ) : ℝ) < 15 ↔ hDistSq cam b < 225 := by
  rw [Real.sqrt_lt' (by norm_num : (0 : ℝ) < 15)]
  constructor
  · intro hlt
    exact_mod_cast (by norm_num at hlt; exact hlt : ((hDistSq cam b : ℚ) : ℝ) < 225)
  · intro hlt
    norm_num
    exact_mod_cast hlt

/-- The comparator, squared form versus square-root form: the squared distances
compare exactly as the source's `Math.sqrt` distances. -/
theorem fartherFirst_sqrt (cam : Camera) (a b : Block) :
    Real.sqrt ((hDistSq cam b : ℚ) : ℝ) ≤ Real.sqrt ((hDistSq cam a : ℚ) : ℝ) ↔
      fartherFirst cam a b := by
  have ha : (0 : ℝ) ≤ ((hDistSq cam a : ℚ) : ℝ) := by
    have h0 : (0 : ℚ) ≤ hDistSq cam a := by unfold hDistSq; positivity
    exact_mod_cast h0
  rw [Real.sqrt_le_sqrt_iff ha]
  exact ⟨fun h => by exact_mod_cast h, fun h => by exact_mod_cast h⟩

/-- C7: the Scene Compositor's working list holds exactly the world blocks
whose horizontal distance to the camera is under the render distance 15, the
rasterized (non-`air`) blocks come out in non-increasing horizontal distance
(farthest first), and blocks at distances 1, 5, 3 are drawn in order 5, 3, 1. -/
theorem claim_painters_order (cam : Camera) (world : List Block) :
    (∀ b : Block, b ∈ sortedBlocks cam world ↔
      b ∈ world ∧ Real.sqrt ((hDistSq cam b : ℚ) : ℝ) < 15) ∧
    (drawnBlocks cam world).Pairwise
      (fun a b => Real.sqrt ((hDistSq cam b : ℚ) : ℝ) ≤
        Real.sqrt ((hDistSq cam a : ℚ) : ℝ)) ∧
    drawnBlocks ⟨0, 0, 0⟩
        [⟨BlockType.grass, 1, 0, 0⟩, ⟨BlockType.grass, 5, 0, 0⟩,
         ⟨BlockType.grass, 3, 0, 0⟩] =
      [⟨BlockType.grass, 5, 0, 0⟩, ⟨BlockType.grass, 3, 0, 0⟩,
       ⟨BlockType.grass, 1, 0, 0⟩] := by
  refine ⟨fun b => ?_, ?_, ?_⟩
  · rw [sortedBlocks, (List.perm_insertionSort _ _).mem_iff, renderSelected,
      List.mem_filter, renderSelected_sqrt]
    simp
  · haveI : IsTotal Block (fartherFirst cam) := ⟨fun a b => le_total _ _⟩
    haveI : IsTrans Block (fartherFirst cam) := ⟨fun _ _ _ h1 h2 => le_trans h2 h1⟩
    have hs : (sortedBlocks cam world).Pairwise (fartherFirst cam) :=
      List.sorted_insertionSort _ _
    have hd : (drawnBlocks cam world).Pairwise (fartherFirst cam) :=
      hs.sublist (List.filter_sublist _)
    exact hd.imp fun h => (fartherFirst_sqrt cam _ _).mpr h
  · norm_num [drawnBlocks, sortedBlocks, renderSelected, hDistSq, fartherFirst,
      List.insertionSort, List.orderedInsert, List.filter]
    decide

/-- `craftFold` peels one ingredient at a time. -/
theorem craftFold_cons (ing : Ingredient) (rest : List Ingredient)
    (inv : List InventoryItem) :
    craftFold (ing :: rest) inv =
      craftFold rest (adjustFirst ing.type (-ing.count) inv) := rfl

/-- `adjustFirst` keeps the slot type sequence. -/
theorem adjustFirst_types (ty : BlockType) (δ : ℤ) :
    ∀ inv : List InventoryItem,
      (adjustFirst ty δ inv).map (fun i => i.type) = inv.map (fun i => i.type) := by
  intro inv
  induction inv with
  | nil => rfl
  | cons i rest ih =>
    by_cases hi : (i.type == ty) = true
    · simp [adjustFirst, hi]
    · simp only [adjustFirst, hi, Bool.false_eq_true, if_false, List.map_cons]
      rw [ih]

/-- `countOf` on a cons: the head answers when its type matches, else the
tail answers. -/
theorem countOf_cons (i : InventoryItem) (rest : List InventoryItem) (ty : BlockType) :
    countOf (i :: rest) ty = if (i.type == ty) = true then i.count else countOf rest ty := by
  by_cases hi : (i.type == ty) = true
  · rw [countOf, @List.find?_cons_of_pos _ (fun j => j.type == ty) i rest hi, if_pos hi]
  · rw [countOf, @List.find?_cons_of_neg _ (fun j => j.type == ty) i rest hi, if_neg hi, countOf]

/-- `adjustFirst` at type `ty` leaves the first-slot count of any other type
alone. -/
theorem countOf_adjustFirst_ne (ty ty' : BlockType) (δ : ℤ) (h : ty' ≠ ty) :
    ∀ inv : List InventoryItem,
      countOf (adjustFirst ty δ inv) ty' = countOf inv ty' := by
  intro inv
  induction inv with
  | nil => rfl
  | cons i rest ih =>
    by_cases hi : (i.type == ty) = true
    · have hit : i.type = ty := by simpa using hi
      have hne : ¬(i.type == ty') = true := by
        simp only [beq_iff_eq, hit]
        exact fun hh => h hh.symm
      simp only [adjustFirst, hi, if_true]
      rw [countOf_cons, countOf_cons, if_neg hne, if_neg hne]
    · simp only [adjustFirst, hi, Bool.false_eq_true, if_false]
      rw [countOf_cons, countOf_cons, ih]

/-- `adjustFirst` at type `ty` shifts the first-slot count of `ty` by `δ`,
provided such a slot exists. -/
theorem countOf_adjustFirst_self (ty : BlockType) (δ : ℤ) :
    ∀ inv : List InventoryItem, (∃ i ∈ inv, i.type = ty) →
      countOf (adjustFirst ty δ inv) ty = countOf inv ty + δ := by
  intro inv
  induction inv with
  | nil => intro hex; simp at hex
  | cons i rest ih =>
    intro hex
    by_cases hi : (i.type == ty) = true
    · simp only [adjustFirst, hi, if_true]
      rw [countOf_cons, countOf_cons, if_pos hi, if_pos hi]
    · simp only [adjustFirst, hi, Bool.false_eq_true, if_false]
      rw [countOf_cons, countOf_cons, if_neg hi, if_neg hi]
      refine ih ?_
      obtain ⟨j, hj, hjt⟩ := hex
      rcases List.mem_cons.mp hj with rfl | hr
      · exact absurd (by simp [hjt]) hi
      · exact ⟨j, hr, hjt⟩

/-- Any slot produced by `adjustFirst` is an original slot, or carries the
shifted first-slot count. -/
theorem mem_adjustFirst (ty : BlockType) (δ : ℤ) :
    ∀ {inv : List InventoryItem} {j : InventoryItem}, j ∈ adjustFirst ty δ inv →
      j ∈ inv ∨ j.count = countOf inv ty + δ := by
  intro inv
  induction inv with
  | nil => intro j hj; exact absurd hj (by simp [adjustFirst])
  | cons i rest ih =>
    intro j hj
    by_cases hi : (i.type == ty) = true
    · simp only [adjustFirst, hi, if_true] at hj
      rcases List.mem_cons.mp hj with rfl | hr
      · right
        rw [countOf_cons, if_pos hi]
      · left
        exact List.mem_cons_of_mem _ hr
    · simp only [adjustFirst, hi, Bool.false_eq_true, if_false] at hj
      rcases List.mem_cons.mp hj with rfl | hr
      · left
        exact List.mem_cons_self _ _
      · rcases ih hr with hm | hc
        · left
          exact List.mem_cons_of_mem _ hm
        · right
          rw [hc, countOf_cons, if_neg hi]

/-- With every slot count nonnegative, every first-slot count is nonnegative. -/
theorem countOf_nonneg (inv : List InventoryItem) (ty : BlockType)
    (h : ∀ i ∈ inv, 0 ≤ i.count) : 0 ≤ countOf inv ty := by
  rcases hf : inv.find? (fun i => i.type == ty) with _ | item
  · simp [countOf, hf]
  · rw [countOf, hf]
    exact h item (List.mem_of_find?_eq_some hf)

/-- The ingredient pass leaves the first-slot count of any type no ingredient
carries unchanged. -/
theorem craftFold_countOf_not_mem (ty : BlockType) :
    ∀ (ings : List Ingredient) (inv : List InventoryItem),
      (∀ ing ∈ ings, ing.type ≠ ty) →
      countOf (craftFold ings inv) ty = countOf inv ty := by
  intro ings
  induction ings with
  | nil => intro inv _; rfl
  | cons ing rest ih =>
    intro inv h
    rw [craftFold_cons, ih _ (fun i hi => h i (List.mem_cons_of_mem _ hi)),
      countOf_adjustFirst_ne _ _ _ (fun hh => h ing (List.mem_cons_self ..) hh.symm)]

/-- The ingredient pass keeps the slot type sequence. -/
theorem craftFold_types :
    ∀ (ings : List Ingredient) (inv : List InventoryItem),
      (craftFold ings inv).map (fun i => i.type) = inv.map (fun i => i.type) := by
  intro ings
  induction ings with
  | nil => intro inv; rfl
  | cons ing rest ih =>
    intro inv
    rw [craftFold_cons, ih, adjustFirst_types]

/-- A slot existence transfers along an equal type sequence. -/
theorem exists_type_of_map_eq {inv inv' : List InventoryItem}
    (h : inv'.map (fun i => i.type) = inv.map (fun i => i.type)) (ty : BlockType) :
    (∃ i ∈ inv, i.type = ty) → ∃ i ∈ inv', i.type = ty := by
  rintro ⟨i, hi, hit⟩
  have hmem : ty ∈ inv.map (fun i => i.type) := List.mem_map.mpr ⟨i, hi, hit⟩
  rw [← h] at hmem
  obtain ⟨j, hj, hjt⟩ := List.mem_map.mp hmem
  exact ⟨j, hj, hjt⟩

/-- With pairwise-distinct ingredient types, the ingredient pass subtracts each
ingredient's count from the first slot of its type. -/
theorem craftFold_countOf_mem :
    ∀ (ings : List Ingredient) (inv : List InventoryItem) (ing₀ : Ingredient),
      (ings.map (fun i => i.type)).Nodup → ing₀ ∈ ings →
      (∃ i ∈ inv, i.type = ing₀.type) →
      countOf (craftFold ings inv) ing₀.type
        = countOf inv ing₀.type - ing₀.count := by
  intro ings
  induction ings with
  | nil => intro inv ing₀ _ hmem; exact absurd hmem (by simp)
  | cons ing rest ih =>
    intro inv ing₀ hnd hmem hex
    simp only [List.map_cons, List.nodup_cons] at hnd
    rcases List.mem_cons.mp hmem with rfl | hr
    · rw [craftFold_cons,
        craftFold_countOf_not_mem _ _ _
          (fun i hi hh => hnd.1 (by rw [← hh]; exact List.mem_map_of_mem _ hi)),
        countOf_adjustFirst_self _ _ _ hex]
      ring
    · have hty : ing₀.type ≠ ing.type :=
        fun hh => hnd.1 (by rw [← hh]; exact List.mem_map_of_mem _ hr)
      rw [craftFold_cons,
        ih _ ing₀ hnd.2 hr
          (exists_type_of_map_eq (adjustFirst_types ing.type (-ing.count) inv) _ hex),
        countOf_adjustFirst_ne _ _ _ hty]

/-- `canCraft` succeeding means every ingredient has a slot of its type whose
count is at least the required count. -/
theorem canCraft_spec {inv : List InventoryItem} {recipe : Recipe}
    (h : canCraft inv recipe = true) :
    ∀ ing ∈ recipe.ingredients,
      (∃ i ∈ inv, i.type = ing.type) ∧ ing.count ≤ countOf inv ing.type := by
  intro ing hing
  have hall := List.all_eq_true.mp h ing hing
  rcases hf : inv.find? (fun i => i.type == ing.type) with _ | item
  · rw [hf] at hall
    simp at hall
  · rw [hf] at hall
    have hmem := List.mem_of_find?_eq_some hf
    have hty : item.type = ing.type := by simpa using List.find?_some hf
    refine ⟨⟨item, hmem, hty⟩, ?_⟩
    rw [countOf, hf]
    simpa using hall

/-- When `canCraft` held before it, the ingredient pass keeps all slot counts
nonnegative. -/
theorem craftFold_nonneg :
    ∀ (ings : List Ingredient) (inv : List InventoryItem),
      (∀ ing ∈ ings, ing.count ≤ countOf inv ing.type) →
      (ings.map (fun i => i.type)).Nodup →
      (∀ i ∈ inv, 0 ≤ i.count) →
      ∀ j ∈ craftFold ings inv, 0 ≤ j.count := by
  intro ings
  induction ings with
  | nil => intro inv _ _ hinv j hj; exact hinv j hj
  | cons ing rest ih =>
    intro inv hcan hnd hinv j hj
    simp only [List.map_cons, List.nodup_cons] at hnd
    have hstep : ∀ i ∈ adjustFirst ing.type (-ing.count) inv, 0 ≤ i.count := by
      intro i hi
      rcases mem_adjustFirst ing.type (-ing.count) hi with hm | hc
      · exact hinv i hm
      · rw [hc]
        have := hcan ing (List.mem_cons_self ..)
        omega
    have hcan' : ∀ ing' ∈ rest,
        ing'.count ≤ countOf (adjustFirst ing.type (-ing.count) inv) ing'.type := by
      intro ing' h'
      have hty : ing'.type ≠ ing.type :=
        fun hh => hnd.1 (by rw [← hh]; exact List.mem_map_of_mem _ h')
      rw [countOf_adjustFirst_ne _ _ _ hty]
      exact hcan ing' (List.mem_cons_of_mem _ h')
    rw [craftFold_cons] at hj
    exact ih _ hcan' hnd.2 hstep j hj

/-- C10: `handleCraft` is a no-op whenever any ingredient's required count
exceeds the inventory's count of that type (that is exactly `canCraft`
failing); otherwise, in one inventory update, it subtracts each ingredient's
count from that type's slot and adds `resultCount` to the result type's slot,
and crafting never drives a nonnegative inventory negative.  Both source
recipes satisfy the side conditions (distinct ingredient types, nonnegative
result count, result distinct from the ingredients). -/
theorem claim_craft_guard (inv : List InventoryItem) (recipe : Recipe)
    (hnodup : (recipe.ingredients.map (fun i => i.type)).Nodup)
    (hres : 0 ≤ recipe.resultCount) :
    (canCraft inv recipe = false → handleCraft inv recipe = inv) ∧
    (canCraft inv recipe = true →
      (∀ ing ∈ recipe.ingredients, ing.type ≠ recipe.result →
        countOf (handleCraft inv recipe) ing.type
          = countOf inv ing.type - ing.count) ∧
      ((∃ i ∈ inv, i.type = recipe.result) →
        (∀ ing ∈ recipe.ingredients, ing.type ≠ recipe.result) →
        countOf (handleCraft inv recipe) recipe.result
          = countOf inv recipe.result + recipe.resultCount)) ∧
    ((∀ i ∈ inv, 0 ≤ i.count) → ∀ j ∈ handleCraft inv recipe, 0 ≤ j.count) ∧
    (∀ r ∈ recipes, (r.ingredients.map (fun i => i.type)).Nodup ∧
      0 ≤ r.resultCount ∧ ∀ ing ∈ r.ingredients, ing.type ≠ r.result) := by
  refine ⟨fun hcan => by simp [handleCraft, hcan], fun hcan => ⟨?_, ?_⟩, ?_, by decide⟩
  · intro ing hing hne
    have hspec := canCraft_spec hcan ing hing
    simp only [handleCraft, hcan, if_true]
    rw [countOf_adjustFirst_ne _ _ _ hne]
    exact craftFold_countOf_mem recipe.ingredients inv ing hnodup hing hspec.1
  · intro hex hne
    simp only [handleCraft, hcan, if_true]
    have hexf : ∃ i ∈ craftFold recipe.ingredients inv, i.type = recipe.result :=
      exists_type_of_map_eq (craftFold_types recipe.ingredients inv) _ hex
    rw [countOf_adjustFirst_self _ _ _ hexf,
      craftFold_countOf_not_mem _ _ _ hne]
  · intro hinv j hj
    by_cases hcan : canCraft inv recipe = true
    · simp only [handleCraft, hcan, if_true] at hj
      have hfold := craftFold_nonneg recipe.ingredients inv
        (fun ing hi => (canCraft_spec hcan ing hi).2) hnodup hinv
      rcases mem_adjustFirst _ _ hj with hm | hc
      · exact hfold j hm
      · rw [hc]
        have h0 := countOf_nonneg (craftFold recipe.ingredients inv) recipe.result hfold
        omega
    · rw [handleCraft, if_neg hcan] at hj
      exact hinv j hj

/-- Witness for C10 at the planks recipe and `part_001`'s initial inventory:
the side conditions hold by computation, and nonnegativity is preserved. -/
theorem claim_craft_guard_witness :
    (([⟨BlockType.wood, 1⟩] : List Ingredient).map (fun i => i.type)).Nodup ∧
    (0 : ℤ) ≤ 4 ∧
    ((∀ i ∈ initialInventory, 0 ≤ i.count) →
      ∀ j ∈ handleCraft initialInventory
        ⟨BlockType.planks, 4, [⟨BlockType.wood, 1⟩]⟩, 0 ≤ j.count) :=
  ⟨by decide, by decide,
   (claim_craft_guard initialInventory ⟨BlockType.planks, 4, [⟨BlockType.wood, 1⟩]⟩
     (by decide) (by decide)).2.2.1⟩

end Pixelcraft
